import Mathlib

/-!
Verification development for the mokabench trace-replay and dispatch engine
(`src/lib.rs`).  The dispatch-engine source (`lib.rs`) is embedded directly;
the collaborating modules that are not part of the dispatch-engine source
(`load_gen`, `parser`, `report`, `config`, `cache`, `eviction_counters`) are
modelled from the specification's contracts, and every such definition is
marked `Modelled from the spec:` in its doc comment.
-/

namespace Mokabench

set_option maxRecDepth 40000

/-- Batch size constant, `const BATCH_SIZE: usize = 200` (lib.rs line 72). -/
def BATCH_SIZE : Nat := 200

/-- Modelled from the spec: a trace entry (module `parser` is not part of the
dispatch-engine source).  Per the spec a trace entry carries a key and
optional value-size metadata; both are abstracted as naturals. -/
structure TraceEntry where
  key : Nat
  size : Nat
deriving DecidableEq

/-- The `Command` enum (lib.rs lines 74-82). -/
inductive Command where
  | getOrInsert (e : TraceEntry)
  | getOrInsertOnce (e : TraceEntry)
  | update (e : TraceEntry)
  | invalidate (e : TraceEntry)
  | invalidateAll
  | invalidateEntriesIf (e : TraceEntry)
  | iterate
deriving DecidableEq

/-- The seven command kinds, used to state per-kind operation counts. -/
inductive CommandKind where
  | getOrInsert
  | getOrInsertOnce
  | update
  | invalidate
  | invalidateAll
  | invalidateEntriesIf
  | iterate
deriving DecidableEq

/-- Kind of a command. -/
def Command.kind : Command → CommandKind
  | .getOrInsert _ => .getOrInsert
  | .getOrInsertOnce _ => .getOrInsertOnce
  | .update _ => .update
  | .invalidate _ => .invalidate
  | .invalidateAll => .invalidateAll
  | .invalidateEntriesIf _ => .invalidateEntriesIf
  | .iterate => .iterate

/-- Modelled from the spec: the configuration contract (module `config` is not
part of the dispatch-engine source).  It exposes at minimum a `repeat` count,
the `size_aware` and `entry_api` flags and whether an eviction listener is
installed (`is_eviction_listener_enabled`). -/
structure Config where
  repeatCount : Option Nat
  sizeAware : Bool
  entryApi : Bool
  evictionListener : Bool
deriving DecidableEq

/-- Modelled from the spec: process-wide eviction counters reported by the
backend (module `eviction_counters` is not part of the dispatch-engine
source); a snapshot is a plain count of evicted entries. -/
structure EvictionCounters where
  evicted : Nat
deriving DecidableEq

/-- Modelled from the spec: the `Report` accumulator (module `report` is not
part of the dispatch-engine source).  It holds named counters (operation
counts by kind, hit and miss counts), a capacity, a worker-count hint, an
optional duration and optional eviction counts. -/
structure Report where
  name : String
  maxCapacity : Nat
  numWorkers : Option Nat
  getOrInsertCount : Nat
  getOrInsertOnceCount : Nat
  updateCount : Nat
  invalidateCount : Nat
  invalidateAllCount : Nat
  invalidateEntriesIfCount : Nat
  iterateCount : Nat
  hitCount : Nat
  missCount : Nat
  duration : Option Nat
  evictionCounts : Option EvictionCounters
deriving DecidableEq

/-- Modelled from the spec: `Report::merge` folds another Report's counters
into `self`; counts sum, while name, capacity, worker hint, duration and
eviction counts are kept from `self` (duration is set once at the top level
and eviction counts are attached once after all merges). -/
def Report.merge (r other : Report) : Report :=
  { r with
    getOrInsertCount := r.getOrInsertCount + other.getOrInsertCount,
    getOrInsertOnceCount := r.getOrInsertOnceCount + other.getOrInsertOnceCount,
    updateCount := r.updateCount + other.updateCount,
    invalidateCount := r.invalidateCount + other.invalidateCount,
    invalidateAllCount := r.invalidateAllCount + other.invalidateAllCount,
    invalidateEntriesIfCount := r.invalidateEntriesIfCount + other.invalidateEntriesIfCount,
    iterateCount := r.iterateCount + other.iterateCount,
    hitCount := r.hitCount + other.hitCount,
    missCount := r.missCount + other.missCount }

/-- Total number of operations recorded in a report (sum of the seven
per-kind operation counters; hits and misses are classifications of
`getOrInsert`/`getOrInsertOnce` operations and are not added again). -/
def Report.totalOps (r : Report) : Nat :=
  r.getOrInsertCount + r.getOrInsertOnceCount + r.updateCount + r.invalidateCount +
    r.invalidateAllCount + r.invalidateEntriesIfCount + r.iterateCount

/-- Operation count of a report for one command kind. -/
def Report.kindCount (r : Report) : CommandKind → Nat
  | .getOrInsert => r.getOrInsertCount
  | .getOrInsertOnce => r.getOrInsertOnceCount
  | .update => r.updateCount
  | .invalidate => r.invalidateCount
  | .invalidateAll => r.invalidateAllCount
  | .invalidateEntriesIf => r.invalidateEntriesIfCount
  | .iterate => r.iterateCount

/-- Modelled from the spec: `Report::add_eviction_counts` attaches a snapshot
of the process-wide eviction counters to the final report. -/
def Report.addEvictionCounts (r : Report) (c : EvictionCounters) : Report :=
  { r with evictionCounts := some c }

/-- Modelled from the spec: the shared `ReportBuilder` template (name,
capacity, worker-count hint) from which each worker builds a fresh report. -/
structure ReportBuilder where
  name : String
  maxCapacity : Nat
  numWorkers : Option Nat
deriving DecidableEq

/-- Modelled from the spec: `ReportBuilder::build` creates a fresh, zeroed
accumulator from the shared template. -/
def ReportBuilder.build (rb : ReportBuilder) : Report :=
  { name := rb.name, maxCapacity := rb.maxCapacity, numWorkers := rb.numWorkers,
    getOrInsertCount := 0, getOrInsertOnceCount := 0, updateCount := 0,
    invalidateCount := 0, invalidateAllCount := 0, invalidateEntriesIfCount := 0,
    iterateCount := 0, hitCount := 0, missCount := 0,
    duration := none, evictionCounts := none }

/-- Modelled from the spec: a raw trace line either parses into exactly one
typed command, or fails to parse.  The concrete line-to-command mapping lives
in the `parser`/`load_gen` modules, which are external collaborators whose
policy is out of scope; only the shape (one command per line, or a fatal
generation error) is contractual. -/
inductive Line where
  | good (c : Command)
  | bad
deriving DecidableEq

/-- Rust's `Iterator::enumerate` starting at index `i`. -/
def enumFromIdx (i : Nat) : List α → List (Nat × α)
  | [] => []
  | x :: xs => (i, x) :: enumFromIdx (i + 1) xs

/-- Rust's `reader.lines().enumerate()`: tag each line with its 0-based
index.  The index restarts at 0 each time the file is re-read. -/
def enumerate (l : List α) : List (Nat × α) := enumFromIdx 0 l

/-- Worker loop of `Itertools::chunks`: `cur` is the reversed current chunk
and `k` the remaining capacity of the current chunk. -/
def chunksGo (n : Nat) : List α → List α → Nat → List (List α)
  | [], cur, _ =>
      match cur with
      | [] => []
      | _ => [cur.reverse]
  | x :: xs, cur, k =>
      match k with
      | 0 => cur.reverse :: chunksGo n xs [x] (n - 1)
      | k + 1 => chunksGo n xs (x :: cur) k

/-- `Itertools::chunks(n)`: split a list into consecutive chunks of size `n`
(the last chunk may be shorter). -/
def chunksOf (n : Nat) (l : List α) : List (List α) := chunksGo n l [] n

/-- Modelled from the spec: `load_gen::generate_commands` (module `load_gen`
is not part of the dispatch-engine source).  Given the running sequence
counter and one chunk of indexed trace lines it produces one ordered batch of
commands, one command per consumed line, each command tagged with the counter
value at its consumption, advancing the counter exactly once per line; it
fails with a generation error if any line of the chunk cannot be parsed. -/
def generateCommands (counter : Nat) : List (Nat × Line) → Except Unit (List (Nat × Command) × Nat)
  | [] => .ok ([], counter)
  | (_, .bad) :: _ => .error ()
  | (_, .good c) :: rest =>
      match generateCommands (counter + 1) rest with
      | .error e => .error e
      | .ok (cmds, counter') => .ok ((counter, c) :: cmds, counter')

/-- One pass of the producer loop body over the chunks of one read of the
trace file (lib.rs lines 307-311): generate a batch per chunk, threading the
sequence counter, and send each batch exactly once (collected in order). -/
def produceChunks (counter : Nat) : List (List (Nat × Line)) → Except Unit (List (List (Nat × Command)) × Nat)
  | [] => .ok ([], counter)
  | ch :: rest =>
      match generateCommands counter ch with
      | .error e => .error e
      | .ok (cmds, counter') =>
          match produceChunks counter' rest with
          | .error e => .error e
          | .ok (bs, counter'') => .ok (cmds :: bs, counter'')

/-- The producer loop of `run_single` / `run_multi_threads` / `run_multi_tasks`
(lib.rs lines 270-279, 303-312, 364-373): for each of `r` repeat iterations
the trace file is re-read, its lines enumerated from 0, chunked into batches
of `BATCH_SIZE`, and turned into command batches while threading one mutable
sequence counter across all batches and all repeats. -/
def produceRepeats (lines : List Line) (counter : Nat) : Nat → Except Unit (List (List (Nat × Command)) × Nat)
  | 0 => .ok ([], counter)
  | r + 1 =>
      match produceChunks counter (chunksOf BATCH_SIZE (enumerate lines)) with
      | .error e => .error e
      | .ok (bs, counter') =>
          match produceRepeats lines counter' r with
          | .error e => .error e
          | .ok (bs', counter'') => .ok (bs ++ bs', counter'')

/-- All command batches produced for `r` repeats of the trace, starting the
sequence counter at 0 (lib.rs `let mut counter = 0;`, lines 266, 303, 364). -/
def produceBatches (r : Nat) (lines : List Line) : Except Unit (List (List (Nat × Command))) :=
  match produceRepeats lines 0 r with
  | .error e => .error e
  | .ok (bs, _) => .ok bs

/-- Modelled from the spec: execution of one command against the shared cache
driver, recording the outcome in the worker's report (module `cache` and the
concrete backends are not part of the dispatch-engine source).  The cache is
abstracted per the driver contract as the set of present keys:
`get_or_insert`/`get_or_insert_once` report a hit when the key is present and
otherwise a miss plus an insertion; `update` upserts; `invalidate` and
`invalidate_entries_if` remove the matching key; `invalidate_all` clears;
`iterate` only scans. -/
def execCommand (st : List Nat) (r : Report) : Command → List Nat × Report
  | .getOrInsert e =>
      if st.contains e.key then
        (st, { r with getOrInsertCount := r.getOrInsertCount + 1, hitCount := r.hitCount + 1 })
      else
        (e.key :: st,
          { r with getOrInsertCount := r.getOrInsertCount + 1, missCount := r.missCount + 1 })
  | .getOrInsertOnce e =>
      if st.contains e.key then
        (st,
          { r with getOrInsertOnceCount := r.getOrInsertOnceCount + 1,
                   hitCount := r.hitCount + 1 })
      else
        (e.key :: st,
          { r with getOrInsertOnceCount := r.getOrInsertOnceCount + 1,
                   missCount := r.missCount + 1 })
  | .update e =>
      (if st.contains e.key then st else e.key :: st,
        { r with updateCount := r.updateCount + 1 })
  | .invalidate e =>
      (st.filter (fun k => k != e.key), { r with invalidateCount := r.invalidateCount + 1 })
  | .invalidateAll => ([], { r with invalidateAllCount := r.invalidateAllCount + 1 })
  | .invalidateEntriesIf e =>
      (st.filter (fun k => k != e.key),
        { r with invalidateEntriesIfCount := r.invalidateEntriesIfCount + 1 })
  | .iterate => (st, { r with iterateCount := r.iterateCount + 1 })

/-- Modelled from the spec: `cache::process_commands` executes the commands of
a batch in order against the driver, accumulating into the report. -/
def processCommands (st : List Nat) (r : Report) : List Command → List Nat × Report
  | [] => (st, r)
  | c :: cs => processCommands (execCommand st r c).1 (execCommand st r c).2 cs

/-- `run_single` (lib.rs lines 254-289): pre-generate all command batches for
all repeats (aborting on the first generation error), then process every
batch sequentially against one unsynchronized driver, into one report built
from the template.  Wall-clock duration is modelled separately by
`runMultiThreadsElapsed`. -/
def runSingleModel (rb : ReportBuilder) (cfg : Config) (lines : List Line) : Except Unit Report :=
  match produceBatches (cfg.repeatCount.getD 1) lines with
  | .error e => .error e
  | .ok bs =>
      .ok (processCommands [] rb.build ((bs.map (fun b => b.map Prod.snd)).flatten)).2

/-- The batches a given worker receives: each batch is consumed by exactly
one worker, so a batch assignment maps batch `i` to worker `assign[i]`; the
worker receives its batches in production order (channel FIFO per consumer). -/
def workerQueue (assign : List Nat) (bs : List (List Command)) (w : Nat) : List Command :=
  (((assign.zip bs).filter (fun p => p.1 == w)).map Prod.snd).flatten

/-- The initial worker pool (lib.rs lines 318-332): `n` workers, each holding
its queue of batches and a fresh report built from the shared template. -/
def initWorkers (n : Nat) (assign : List Nat) (bs : List (List Command)) (rb : ReportBuilder) :
    List (List Command × Report) :=
  (List.range n).map (fun w => (workerQueue assign bs w, rb.build))

/-- Worker pool of `run_multi_threads` for already-produced batches. -/
def multiWorkersInit (rb : ReportBuilder) (n : Nat) (assign : List Nat)
    (bs : List (List (Nat × Command))) : List (List Command × Report) :=
  initWorkers n assign (bs.map (fun b => b.map Prod.snd)) rb

/-- Interleaved execution of the worker pool (lib.rs lines 324-330): a
schedule is a list of worker indices; at each step the named worker executes
the next command of its queue against the shared cache state, recording into
its own report (a step naming an unknown or exhausted worker is a no-op).
This models the preemptive interleaving of the worker threads at command
granularity; per-worker order is preserved, cross-worker order is not. -/
def runSchedule : List Nat → List Nat → List (List Command × Report) →
    List Nat × List (List Command × Report)
  | [], st, ws => (st, ws)
  | w :: sched, st, ws =>
      match ws[w]? with
      | none => runSchedule sched st ws
      | some (q, r) =>
          match q with
          | [] => runSchedule sched st ws
          | c :: rest =>
              runSchedule sched (execCommand st r c).1 (ws.set w (rest, (execCommand st r c).2))

/-- The schedule drains every worker queue (the channel is closed and empty,
so every worker's receive loop has terminated). -/
def drains (sched : List Nat) (ws : List (List Command × Report)) : Prop :=
  ∀ p ∈ (runSchedule sched [] ws).2, p.1 = ([] : List Command)

/-- `run_multi_threads` (lib.rs lines 292-351): produce and buffer all
batches (aborting the run on a generation error, before any worker is
spawned), hand each batch to exactly one worker, run the workers under an
interleaving schedule, then merge the per-worker reports into a report built
from the template.  Wall-clock duration and the eviction-counter step are
modelled separately by `runMultiThreadsElapsed` and `finalizeReport`. -/
def runMultiThreadsModel (rb : ReportBuilder) (cfg : Config) (lines : List Line)
    (n : Nat) (assign sched : List Nat) : Except Unit Report :=
  match produceBatches (cfg.repeatCount.getD 1) lines with
  | .error e => .error e
  | .ok bs =>
      let ws := (runSchedule sched [] (multiWorkersInit rb n assign bs)).2
      .ok ((ws.map Prod.snd).foldl Report.merge rb.build)

/-- `run_multi_tasks` (lib.rs lines 353-421): identical producer, worker-pool
and merge structure to `run_multi_threads`; the workers are cooperative tasks
whose periodic yield (modelled by `workerEvents`) does not affect the
produced reports. -/
def runMultiTasksModel (rb : ReportBuilder) (cfg : Config) (lines : List Line)
    (n : Nat) (assign sched : List Nat) : Except Unit Report :=
  match produceBatches (cfg.repeatCount.getD 1) lines with
  | .error e => .error e
  | .ok bs =>
      let ws := (runSchedule sched [] (multiWorkersInit rb n assign bs)).2
      .ok ((ws.map Prod.snd).foldl Report.merge rb.build)

/-- Hit count of a run result (0 for a failed run). -/
def hitOf : Except Unit Report → Nat
  | .ok r => r.hitCount
  | .error _ => 0

/-- Time accounting of `run_multi_threads` in source order (lib.rs lines
303-339): the producer loop runs first, `Instant::now()` is taken only after
the producer loop and the sender drop, the workers are then spawned and
joined, and `instant.elapsed()` is read after the last join. -/
def runMultiThreadsElapsed (produceTime workTime : Nat) : Nat :=
  let startTime := 0
  let afterProduce := startTime + produceTime
  let instantStart := afterProduce
  let afterJoin := afterProduce + workTime
  afterJoin - instantStart

/-- Observable scheduling events of one async worker: processing a batch of a
given command count, or yielding to the scheduler. -/
inductive WEvent where
  | procBatch (commands : Nat)
  | yieldNow
deriving DecidableEq

/-- Event trace of the `run_multi_tasks` worker loop (lib.rs lines 386-394):
for each received batch the worker processes it, increments its received
count, and yields exactly when that count is a multiple of 10000. -/
def workerEvents (count : Nat) : List Nat → List WEvent
  | [] => []
  | b :: rest =>
      if (count + 1) % 10000 = 0 then
        .procBatch b :: .yieldNow :: workerEvents (count + 1) rest
      else
        .procBatch b :: workerEvents (count + 1) rest

/-- Maximum, over all points of a worker event trace, of the number of
commands processed since the last yield (or since the worker started). -/
def maxRunCmds (cur best : Nat) : List WEvent → Nat
  | [] => max cur best
  | .procBatch n :: rest => maxRunCmds (cur + n) (max (cur + n) best) rest
  | .yieldNow :: rest => maxRunCmds 0 (max cur best) rest

/-- Channel policies named by the spec. -/
inductive ChannelPolicy where
  | unbounded
  | bounded (capacity : Nat)
deriving DecidableEq

/-- Whether a channel policy is the bounded (backpressure) one. -/
def ChannelPolicy.isBounded : ChannelPolicy → Bool
  | .unbounded => false
  | .bounded _ => true

/-- Channel construction of `run_multi_threads`
(`crossbeam_channel::unbounded`, lib.rs line 299); it does not consult the
configuration. -/
def runMultiThreadsChannel (_cfg : Config) : ChannelPolicy := .unbounded

/-- Channel construction of `run_multi_tasks`
(`crossbeam_channel::unbounded`, lib.rs line 360); it does not consult the
configuration. -/
def runMultiTasksChannel (_cfg : Config) : ChannelPolicy := .unbounded

/-- The size-aware capacity factor `2u64.pow(15)` (lib.rs line 90 etc.). -/
def sizeAwareFactor : Nat := 2 ^ 15

/-- Size of the `u64` value space. -/
def u64Size : Nat := 2 ^ 64

/-- Capacity computation shared by the moka entry points and `run_single`
(lib.rs lines 89-93, 112-116, 136-140, 159-163, 192-196, 255-258): `u64`
multiplication by the size factor when `size_aware` is set. -/
def mokaMaxCap (sizeAware : Bool) (capacity : Nat) : Nat :=
  if sizeAware then (capacity * sizeAwareFactor) % u64Size else capacity

/-- The public entry-point functions of lib.rs. -/
inductive EntryFn where
  | mokaSync
  | mokaSegment
  | mokaAsync
  | mokaDash
  | hashLink
  | quickCache
  | lightCache
  | lightCacheLru
  | stretto
  | tinyUfo
  | single
deriving DecidableEq

/-- Maximum capacity handed to the cache driver by each entry point (lib.rs:
the moka constructors and `run_single` pass `max_cap`; `QuickCache::new`
receives `max_cap` as its weight capacity; `HashLink::new`,
`LightCache::new`, `LightCacheLru::new`, `StrettoCache::new` and
`TinyUfoCache::new` receive the nominal `capacity` only). -/
def driverMaxCap (e : EntryFn) (sizeAware : Bool) (capacity : Nat) : Nat :=
  match e with
  | .mokaSync | .mokaSegment | .mokaAsync | .mokaDash | .single | .quickCache =>
      mokaMaxCap sizeAware capacity
  | .hashLink | .lightCache | .lightCacheLru | .stretto | .tinyUfo => capacity

/-- Capacity recorded in the `ReportBuilder` (or `Report::new`) by each entry
point (lib.rs lines 94, 118, 141, 170, 182, 199, 213, 227, 238, 249, 265):
the moka entry points and `run_single` record `max_cap`; `hashlink`,
`quick_cache`, `light-cache`, `stretto` and `tiny-ufo` record the nominal
`capacity`. -/
def reportMaxCap (e : EntryFn) (sizeAware : Bool) (capacity : Nat) : Nat :=
  match e with
  | .mokaSync | .mokaSegment | .mokaAsync | .mokaDash | .single =>
      mokaMaxCap sizeAware capacity
  | .quickCache | .hashLink | .lightCache | .lightCacheLru | .stretto | .tinyUfo => capacity

/-- Outcome of the post-merge eviction-counter step: a normal return, or an
aborted process (the `unwrap` on `None`, which is not an error `Result`). -/
inductive RunOutcome where
  | ok (r : Report)
  | panicked
deriving DecidableEq

/-- The eviction-counter step closing `run_multi_threads` and
`run_multi_tasks` (lib.rs lines 346-348 and 416-418): when the configuration
enables the eviction listener the driver's counters are unwrapped and added
to the merged report; `unwrap` on `None` aborts instead of returning an
error. -/
def finalizeReport (cfg : Config) (counters : Option EvictionCounters) (report : Report) :
    RunOutcome :=
  if cfg.evictionListener then
    match counters with
    | some c => .ok (report.addEvictionCounts c)
    | none => .panicked
  else
    .ok report

/-- Per-kind indicator weight of a command. -/
def kindIndicator (k : CommandKind) (c : Command) : Nat :=
  if c.kind = k then 1 else 0

/-- Invariant quantity of a worker pool: the sum over workers of a report
projection plus the weight of the commands still queued. -/
def wTotal (f : Report → Nat) (g : Command → Nat) (ws : List (List Command × Report)) : Nat :=
  (ws.map (fun p => f p.2 + (p.1.map g).sum)).sum

/-- Clause of the spec for the size-aware capacity (`2^15` factor applied
with exact integer arithmetic), stated separately for comparison with the
source-derived capacity functions. -/
def specSizeAwareCap (sizeAware : Bool) (capacity : Nat) : Nat :=
  if sizeAware then capacity * sizeAwareFactor else capacity

instance (sched : List Nat) (ws : List (List Command × Report)) : Decidable (drains sched ws) :=
  inferInstanceAs (Decidable (∀ p ∈ (runSchedule sched [] ws).2, p.1 = ([] : List Command)))

/-- Batch-size sequence of 51 full batches, used as a concrete worker input. -/
def c5Batches : List Nat := List.replicate 51 200

/-- Concrete trace entry used by the concrete runs below. -/
def c8Entry : TraceEntry := ⟨7, 1⟩

/-- Concrete 202-line trace: a `GetOrInsert` of one key, 199 `Iterate` lines
filling the first batch, then an `Invalidate` of the key and a second
`GetOrInsert` of it in the second batch. -/
def c8Lines : List Line :=
  Line.good (Command.getOrInsert c8Entry)
    :: (List.replicate 199 (Line.good Command.iterate)
        ++ [Line.good (Command.invalidate c8Entry), Line.good (Command.getOrInsert c8Entry)])

/-- Concrete configuration: one repeat, no flags. -/
def c8Cfg : Config := ⟨some 1, false, false, false⟩

/-- Concrete report template. -/
def c8Rb : ReportBuilder := ⟨"model", 100, some 4⟩

/-- Concrete batch assignment: batch 0 to worker 0, batch 1 to worker 1. -/
def c8Assign : List Nat := [0, 1]

/-- Concrete schedule: worker 1 runs its whole (second) batch before worker 0
starts on the first batch. -/
def c8Sched : List Nat := [1, 1] ++ List.replicate 200 0

/-- Concrete per-worker report sample. -/
def sampleReportA : Report := ⟨"a", 0, none, 1, 0, 0, 0, 0, 0, 0, 1, 0, none, none⟩

/-- Another concrete per-worker report sample, differing from the first. -/
def sampleReportB : Report := ⟨"b", 0, none, 0, 2, 0, 0, 0, 0, 0, 0, 2, none, none⟩

/-- Concrete report template for small runs. -/
def sampleRb : ReportBuilder := ⟨"sample", 10, some 2⟩

/-- Concrete configuration with no repeat count and no flags. -/
def sampleCfg : Config := ⟨none, false, false, false⟩

/-- Concrete configuration with the eviction listener enabled. -/
def listenerCfg : Config := ⟨none, false, false, true⟩

/-- Concrete eviction-counter snapshot. -/
def sampleCounters : EvictionCounters := ⟨5⟩

/-- A one-line trace whose single line parses. -/
def oneGoodLine : List Line := [Line.good Command.iterate]

/-- A one-line trace whose single line fails to parse. -/
def oneBadLine : List Line := [Line.bad]

/-- Dropping the indices of an enumeration recovers the original list. -/
theorem enumFromIdx_map_snd : ∀ (l : List α) (i : Nat), (enumFromIdx i l).map Prod.snd = l
  | [], _ => rfl
  | x :: xs, i => by simp [enumFromIdx, enumFromIdx_map_snd xs]

/-- Enumeration preserves length. -/
theorem enumFromIdx_length : ∀ (l : List α) (i : Nat), (enumFromIdx i l).length = l.length
  | [], _ => rfl
  | x :: xs, i => by simp [enumFromIdx, enumFromIdx_length xs]

/-- Dropping the indices of `enumerate` recovers the original list. -/
theorem enumerate_map_snd (l : List α) : (enumerate l).map Prod.snd = l :=
  enumFromIdx_map_snd l 0

/-- The line enumeration preserves length. -/
theorem enumerate_length (l : List α) : (enumerate l).length = l.length :=
  enumFromIdx_length l 0

/-- Flattening the chunk worker recovers the pending chunk plus the rest of
the input. -/
theorem chunksGo_flatten (n : Nat) :
    ∀ (l cur : List α) (k : Nat), (chunksGo n l cur k).flatten = cur.reverse ++ l := by
  intro l
  induction l with
  | nil =>
      intro cur k
      cases cur <;> simp [chunksGo]
  | cons x xs ih =>
      intro cur k
      cases k with
      | zero => simp [chunksGo, ih]
      | succ k => simp [chunksGo, ih]

/-- Flattening the chunks of a list recovers the list. -/
theorem chunksOf_flatten (n : Nat) (l : List α) : (chunksOf n l).flatten = l := by
  simpa using chunksGo_flatten n l [] n

/-- Two adjacent index ranges concatenate. -/
theorem range'_add_append (s m n : Nat) :
    List.range' s m ++ List.range' (s + m) n = List.range' s (m + n) := by
  have h := List.range'_append s m n 1
  rw [Nat.one_mul] at h
  rw [Nat.add_comm n m] at h
  exact h

/-- A successful `generateCommands` call produces one command per consumed
line, tags them with the consecutive counter values, and advances the
counter exactly once per line. -/
theorem generateCommands_ok :
    ∀ (chunk : List (Nat × Line)) (counter : Nat) (out : List (Nat × Command) × Nat),
      generateCommands counter chunk = .ok out →
      out.1.map Prod.fst = List.range' counter chunk.length ∧
      out.2 = counter + chunk.length := by
  intro chunk
  induction chunk with
  | nil =>
      intro counter out h
      simp only [generateCommands, Except.ok.injEq] at h
      subst h
      simp [List.range']
  | cons p rest ih =>
      intro counter out h
      obtain ⟨i, line⟩ := p
      cases line with
      | bad => simp [generateCommands] at h
      | good c =>
          simp only [generateCommands] at h
          cases hrec : generateCommands (counter + 1) rest with
          | error e => rw [hrec] at h; simp at h
          | ok q =>
              rw [hrec] at h
              obtain ⟨cmds, counter'⟩ := q
              simp only [Except.ok.injEq] at h
              subst h
              obtain ⟨h1, h2⟩ := ih (counter + 1) (cmds, counter') hrec
              refine ⟨?_, by simp at h2 ⊢; omega⟩
              simp only [List.map_cons, List.length_cons]
              rw [show List.range' counter (rest.length + 1) = counter :: List.range' (counter + 1) rest.length from rfl]
              simp at h1
              rw [h1]

/-- A chunk containing an unparseable line makes `generateCommands` fail. -/
theorem generateCommands_error_of_bad :
    ∀ (chunk : List (Nat × Line)) (counter : Nat),
      Line.bad ∈ chunk.map Prod.snd → generateCommands counter chunk = .error () := by
  intro chunk
  induction chunk with
  | nil => intro counter h; simp at h
  | cons p rest ih =>
      intro counter h
      obtain ⟨i, line⟩ := p
      cases line with
      | bad => rfl
      | good c =>
          simp only [List.map_cons, List.mem_cons] at h
          rcases h with h | h
          · exact absurd h.symm (by simp)
          · simp only [generateCommands]
            rw [ih (counter + 1) h]

/-- A failing `generateCommands` call means some consumed line was
unparseable. -/
theorem generateCommands_bad_of_error :
    ∀ (chunk : List (Nat × Line)) (counter : Nat),
      generateCommands counter chunk = .error () → Line.bad ∈ chunk.map Prod.snd := by
  intro chunk
  induction chunk with
  | nil => intro counter h; simp [generateCommands] at h
  | cons p rest ih =>
      intro counter h
      obtain ⟨i, line⟩ := p
      cases line with
      | bad => simp
      | good c =>
          simp only [generateCommands] at h
          cases hrec : generateCommands (counter + 1) rest with
          | error e =>
              cases e
              simp only [List.map_cons]
              exact List.mem_cons_of_mem _ (ih (counter + 1) hrec)
          | ok q => simp [hrec] at h

/-- A successful pass over the chunks of one trace read emits one batch per
chunk whose concatenation is tagged with consecutive counter values covering
every consumed line. -/
theorem produceChunks_ok :
    ∀ (chs : List (List (Nat × Line))) (counter : Nat)
      (out : List (List (Nat × Command)) × Nat),
      produceChunks counter chs = .ok out →
      out.1.flatten.map Prod.fst = List.range' counter chs.flatten.length ∧
      out.2 = counter + chs.flatten.length := by
  intro chs
  induction chs with
  | nil =>
      intro counter out h
      simp only [produceChunks, Except.ok.injEq] at h
      subst h
      simp [List.range']
  | cons ch rest ih =>
      intro counter out h
      simp only [produceChunks] at h
      cases hg : generateCommands counter ch with
      | error e => simp [hg] at h
      | ok p =>
          obtain ⟨cmds, c1⟩ := p
          simp only [hg] at h
          cases hrec : produceChunks c1 rest with
          | error e => simp [hrec] at h
          | ok q =>
              obtain ⟨bs, c2⟩ := q
              simp only [hrec, Except.ok.injEq] at h
              subst h
              obtain ⟨hg1, hg2⟩ := generateCommands_ok ch counter (cmds, c1) hg
              obtain ⟨hr1, hr2⟩ := ih c1 (bs, c2) hrec
              simp only at hg1 hg2 hr1 hr2
              constructor
              · simp only [List.flatten_cons, List.map_append, List.flatten_append,
                  List.length_append]
                rw [hg1, hr1, hg2]
                exact range'_add_append counter ch.length rest.flatten.length
              · simp only [List.flatten_cons, List.length_append]
                omega

/-- A pass over chunks containing an unparseable line fails. -/
theorem produceChunks_error_of_bad :
    ∀ (chs : List (List (Nat × Line))) (counter : Nat),
      Line.bad ∈ chs.flatten.map Prod.snd → produceChunks counter chs = .error () := by
  intro chs
  induction chs with
  | nil => intro counter h; simp at h
  | cons ch rest ih =>
      intro counter h
      simp only [List.flatten_cons, List.map_append, List.mem_append] at h
      simp only [produceChunks]
      rcases h with h | h
      · simp [generateCommands_error_of_bad ch counter h]
      · cases hg : generateCommands counter ch with
        | error e => cases e; simp [hg]
        | ok p =>
            obtain ⟨cmds, c1⟩ := p
            simp [hg, ih c1 h]

/-- A failing pass over chunks means some consumed line was unparseable. -/
theorem produceChunks_bad_of_error :
    ∀ (chs : List (List (Nat × Line))) (counter : Nat),
      produceChunks counter chs = .error () → Line.bad ∈ chs.flatten.map Prod.snd := by
  intro chs
  induction chs with
  | nil => intro counter h; simp [produceChunks] at h
  | cons ch rest ih =>
      intro counter h
      simp only [produceChunks] at h
      simp only [List.flatten_cons, List.map_append, List.mem_append]
      cases hg : generateCommands counter ch with
      | error e => cases e; exact Or.inl (generateCommands_bad_of_error ch counter hg)
      | ok p =>
          obtain ⟨cmds, c1⟩ := p
          simp only [hg] at h
          cases hrec : produceChunks c1 rest with
          | error e => cases e; exact Or.inr (ih c1 hrec)
          | ok q => simp [hrec] at h

/-- A successful producer run over `r` repeats emits batches whose
concatenated commands are tagged with the consecutive counter values
`counter, counter+1, ...` covering every line of every repeat, and the
counter advances exactly once per consumed line. -/
theorem produceRepeats_ok :
    ∀ (r : Nat) (lines : List Line) (counter : Nat)
      (out : List (List (Nat × Command)) × Nat),
      produceRepeats lines counter r = .ok out →
      out.1.flatten.map Prod.fst = List.range' counter (r * lines.length) ∧
      out.2 = counter + r * lines.length := by
  intro r
  induction r with
  | zero =>
      intro lines counter out h
      simp only [produceRepeats, Except.ok.injEq] at h
      subst h
      simp [List.range']
  | succ r ih =>
      intro lines counter out h
      simp only [produceRepeats] at h
      cases hc : produceChunks counter (chunksOf BATCH_SIZE (enumerate lines)) with
      | error e => simp [hc] at h
      | ok p =>
          obtain ⟨bs, c1⟩ := p
          simp only [hc] at h
          cases hrec : produceRepeats lines c1 r with
          | error e => simp [hrec] at h
          | ok q =>
              obtain ⟨bs', c2⟩ := q
              simp only [hrec, Except.ok.injEq] at h
              subst h
              obtain ⟨h1, h2⟩ := produceChunks_ok _ counter (bs, c1) hc
              obtain ⟨h3, h4⟩ := ih lines c1 (bs', c2) hrec
              have hlen : (chunksOf BATCH_SIZE (enumerate lines)).flatten.length = lines.length := by
                rw [chunksOf_flatten]
                exact enumerate_length lines
              rw [hlen] at h1 h2
              simp only at h1 h2 h3 h4
              constructor
              · simp only [List.flatten_append, List.map_append]
                rw [h1, h3, h2, range'_add_append]
                have : lines.length + r * lines.length = (r + 1) * lines.length := by ring
                rw [this]
              · simp only
                have : lines.length + r * lines.length = (r + 1) * lines.length := by ring
                omega

/-- With at least one repeat, a trace containing an unparseable line makes
the producer fail. -/
theorem produceRepeats_error_of_bad :
    ∀ (r : Nat) (lines : List Line) (counter : Nat),
      1 ≤ r → Line.bad ∈ lines → produceRepeats lines counter r = .error () := by
  intro r lines counter hr hbad
  cases r with
  | zero => omega
  | succ r =>
      simp only [produceRepeats]
      have hmem : Line.bad ∈ (chunksOf BATCH_SIZE (enumerate lines)).flatten.map Prod.snd := by
        rw [chunksOf_flatten, enumerate_map_snd]
        exact hbad
      simp [produceChunks_error_of_bad _ counter hmem]

/-- A failing producer run means the trace contains an unparseable line. -/
theorem produceRepeats_bad_of_error :
    ∀ (r : Nat) (lines : List Line) (counter : Nat),
      produceRepeats lines counter r = .error () → Line.bad ∈ lines := by
  intro r
  induction r with
  | zero => intro lines counter h; simp [produceRepeats] at h
  | succ r ih =>
      intro lines counter h
      simp only [produceRepeats] at h
      cases hc : produceChunks counter (chunksOf BATCH_SIZE (enumerate lines)) with
      | error e =>
          cases e
          have := produceChunks_bad_of_error _ counter hc
          rw [chunksOf_flatten, enumerate_map_snd] at this
          exact this
      | ok p =>
          obtain ⟨bs, c1⟩ := p
          simp only [hc] at h
          cases hrec : produceRepeats lines c1 r with
          | error e => cases e; exact ih lines c1 hrec
          | ok q => simp [hrec] at h

/-- With at least one repeat, a trace containing an unparseable line makes
batch production fail. -/
theorem produceBatches_error_of_bad (r : Nat) (lines : List Line) (hr : 1 ≤ r)
    (hbad : Line.bad ∈ lines) : produceBatches r lines = .error () := by
  simp only [produceBatches]
  simp [produceRepeats_error_of_bad r lines 0 hr hbad]

/-- A fully parseable trace always produces batches successfully. -/
theorem produceBatches_ok_of_good (r : Nat) (lines : List Line)
    (hgood : Line.bad ∉ lines) :
    ∃ bs, produceBatches r lines = .ok bs := by
  simp only [produceBatches]
  cases h : produceRepeats lines 0 r with
  | error e =>
      cases e
      exact absurd (produceRepeats_bad_of_error r lines 0 h) hgood
  | ok p => exact ⟨p.1, rfl⟩

/-- C2: the sequence counter starts at 0 and advances exactly once per
consumed trace line across all batches and all repeats (the same producer
loop serves `run_single`, `run_multi_threads` and `run_multi_tasks`), so the
sequence indices carried by the generated commands are exactly
`0, 1, ..., repeat * lines - 1`: globally unique, strictly increasing, with
no duplicate and no skipped index, even though the per-read line enumeration
restarts at 0 for each repeat. -/
theorem C2_sequence_indices (r : Nat) (lines : List Line)
    (bs : List (List (Nat × Command))) (counter : Nat)
    (h : produceRepeats lines 0 r = .ok (bs, counter)) :
    bs.flatten.map Prod.fst = List.range (r * lines.length) ∧
    counter = r * lines.length := by
  obtain ⟨h1, h2⟩ := produceRepeats_ok r lines 0 (bs, counter) h
  refine ⟨?_, by simpa using h2⟩
  rw [List.range_eq_range']
  simpa using h1

/-- Witness for C2 at a one-line trace replayed twice. -/
theorem C2_sequence_indices_witness :
    ([[(0, Command.iterate)], [(1, Command.iterate)]] : List (List (Nat × Command))).flatten.map
        Prod.fst = List.range (2 * oneGoodLine.length) ∧
    (2 : Nat) = 2 * oneGoodLine.length :=
  C2_sequence_indices 2 oneGoodLine [[(0, Command.iterate)], [(1, Command.iterate)]] 2 rfl

/-- C7: for all three run functions, an unparseable trace line (consumed by
at least one repeat iteration) makes the whole run return the generation
error — no command of any batch is executed and no partially merged report
is returned — while a fully parseable trace always completes with a report:
there is no partial-success mode. -/
theorem C7_generation_error_propagation (rb : ReportBuilder) (cfg : Config)
    (lines : List Line) (n : Nat) (assign sched : List Nat) :
    (Line.bad ∈ lines → 1 ≤ cfg.repeatCount.getD 1 →
      runSingleModel rb cfg lines = .error () ∧
      runMultiThreadsModel rb cfg lines n assign sched = .error () ∧
      runMultiTasksModel rb cfg lines n assign sched = .error ()) ∧
    (Line.bad ∉ lines →
      (runSingleModel rb cfg lines).isOk = true ∧
      (runMultiThreadsModel rb cfg lines n assign sched).isOk = true ∧
      (runMultiTasksModel rb cfg lines n assign sched).isOk = true) := by
  constructor
  · intro hbad hr
    have hp := produceBatches_error_of_bad (cfg.repeatCount.getD 1) lines hr hbad
    refine ⟨?_, ?_, ?_⟩ <;>
      simp [runSingleModel, runMultiThreadsModel, runMultiTasksModel, hp]
  · intro hgood
    obtain ⟨bs, hbs⟩ := produceBatches_ok_of_good (cfg.repeatCount.getD 1) lines hgood
    refine ⟨?_, ?_, ?_⟩ <;>
      simp [runSingleModel, runMultiThreadsModel, runMultiTasksModel, hbs, Except.isOk,
        Except.toBool]

/-- Witness for C7 at a one-line unparseable trace and a one-line parseable
trace. -/
theorem C7_generation_error_propagation_witness :
    (runSingleModel sampleRb sampleCfg oneBadLine = .error () ∧
     runMultiThreadsModel sampleRb sampleCfg oneBadLine 1 [0] [0] = .error () ∧
     runMultiTasksModel sampleRb sampleCfg oneBadLine 1 [0] [0] = .error ()) ∧
    ((runSingleModel sampleRb sampleCfg oneGoodLine).isOk = true ∧
     (runMultiThreadsModel sampleRb sampleCfg oneGoodLine 1 [0] [0]).isOk = true ∧
     (runMultiTasksModel sampleRb sampleCfg oneGoodLine 1 [0] [0]).isOk = true) :=
  ⟨(C7_generation_error_propagation sampleRb sampleCfg oneBadLine 1 [0] [0]).1
      (by decide) (by decide),
   (C7_generation_error_propagation sampleRb sampleCfg oneGoodLine 1 [0] [0]).2 (by decide)⟩

/-- Merging is right-commutative: merging two worker reports into an
accumulator in either order gives the same report. -/
theorem merge_merge_right_comm (t a b : Report) :
    (t.merge a).merge b = (t.merge b).merge a := by
  cases t
  cases a
  cases b
  simp only [Report.merge, Report.mk.injEq, true_and, and_true]
  omega

/-- Folding reports with `Report.merge` is invariant under permutation of the
folded list. -/
theorem foldl_merge_perm {l₁ l₂ : List Report} (h : l₁.Perm l₂) :
    ∀ t : Report, l₁.foldl Report.merge t = l₂.foldl Report.merge t := by
  induction h with
  | nil => intro t; rfl
  | cons x h ih => intro t; simpa using ih (t.merge x)
  | swap x y l => intro t; simp only [List.foldl]; rw [merge_merge_right_comm]
  | trans h₁ h₂ ih₁ ih₂ => intro t; rw [ih₁, ih₂]

/-- C3: folding any permutation of the per-worker reports into the freshly
built template report yields an identical aggregate report, so the final
result does not depend on worker completion order. -/
theorem C3_merge_fold_order_independent (rb : ReportBuilder) (l₁ l₂ : List Report)
    (h : l₁.Perm l₂) :
    l₁.foldl Report.merge rb.build = l₂.foldl Report.merge rb.build :=
  foldl_merge_perm h rb.build

/-- Witness for C3 at two concrete worker reports folded in both orders. -/
theorem C3_merge_fold_order_independent_witness :
    [sampleReportA, sampleReportB].foldl Report.merge sampleRb.build
      = [sampleReportB, sampleReportA].foldl Report.merge sampleRb.build :=
  C3_merge_fold_order_independent sampleRb [sampleReportA, sampleReportB]
    [sampleReportB, sampleReportA] (by decide)

/-- C4 counterexample: with a producer phase of 5 time units and a worker
phase of 3 units, the elapsed duration recorded by `run_multi_threads` is 3,
not 8, so the measured interval does not span from the start of producing. -/
theorem C4_elapsed_cex : runMultiThreadsElapsed 5 3 ≠ 5 + 3 := by decide

/-- C4 (amended): the elapsed duration recorded by `run_multi_threads` spans
from after the producer loop (and sender drop) to the join of the last
worker: it equals the worker-pool time and excludes the producer phase. -/
theorem C4_elapsed_amended :
    ∀ produceTime workTime : Nat, runMultiThreadsElapsed produceTime workTime = workTime := by
  intro p w
  simp only [runMultiThreadsElapsed]
  omega

/-- C5 counterexample: after 51 consecutive full batches (10200 commands) a
`run_multi_tasks` worker has still never yielded, so the number of commands
executed since the last yield exceeds 10000. -/
theorem C5_yield_cadence_cex : 10000 < maxRunCmds 0 0 (workerEvents 0 c5Batches) := by decide

/-- Bound on the commands processed between yields, threading the loop
counter: yields happen exactly at multiples of 10000 received batches, each
of at most 200 commands. -/
theorem maxRunCmds_bound :
    ∀ (l : List Nat) (count cur best : Nat),
      (∀ b ∈ l, b ≤ 200) → cur ≤ count % 10000 * 200 → best ≤ 2000000 →
      maxRunCmds cur best (workerEvents count l) ≤ 2000000 := by
  intro l
  induction l with
  | nil =>
      intro count cur best _ hcur hbest
      simp only [workerEvents, maxRunCmds]
      omega
  | cons b rest ih =>
      intro count cur best hb hcur hbest
      have hb1 : b ≤ 200 := hb b (by simp)
      have hrest : ∀ x ∈ rest, x ≤ 200 := fun x hx => hb x (by simp [hx])
      by_cases h : (count + 1) % 10000 = 0
      · rw [workerEvents, if_pos h]
        simp only [maxRunCmds]
        exact ih (count + 1) 0 _ hrest (by omega) (by omega)
      · rw [workerEvents, if_neg h]
        simp only [maxRunCmds]
        exact ih (count + 1) (cur + b) _ hrest (by omega) (by omega)

/-- C5 (amended): a `run_multi_tasks` worker yields after every 10000
processed batches, not commands; with batches of at most `BATCH_SIZE`
commands, the number of commands executed since the last yield (or since the
worker started) never exceeds `10000 * BATCH_SIZE`. -/
theorem C5_yield_amended (batchSizes : List Nat) (h : ∀ b ∈ batchSizes, b ≤ BATCH_SIZE) :
    maxRunCmds 0 0 (workerEvents 0 batchSizes) ≤ 10000 * BATCH_SIZE := by
  have h' : ∀ b ∈ batchSizes, b ≤ 200 := by simpa [BATCH_SIZE] using h
  have hb := maxRunCmds_bound batchSizes 0 0 0 h' (by omega) (by omega)
  simpa [BATCH_SIZE] using hb

/-- Witness for C5 (amended) at the concrete 51-batch worker input. -/
theorem C5_yield_amended_witness :
    maxRunCmds 0 0 (workerEvents 0 c5Batches) ≤ 10000 * BATCH_SIZE :=
  C5_yield_amended c5Batches (by decide)

/-- C6 counterexample: no configuration makes either dispatch engine use a
bounded channel; both `run_multi_threads` and `run_multi_tasks` construct
`crossbeam_channel::unbounded` unconditionally. -/
theorem C6_channel_policy_cex :
    ¬ ∃ cfg : Config,
        (runMultiThreadsChannel cfg).isBounded = true ∨
        (runMultiTasksChannel cfg).isBounded = true := by
  rintro ⟨cfg, h | h⟩ <;>
    simp [runMultiThreadsChannel, runMultiTasksChannel, ChannelPolicy.isBounded] at h

/-- C6 (amended): the synchronous and asynchronous dispatch engines use only
the unbounded channel policy, for every configuration; the producer never
blocks and all batches are buffered ahead of consumption. -/
theorem C6_channel_policy_amended :
    ∀ cfg : Config,
      runMultiThreadsChannel cfg = ChannelPolicy.unbounded ∧
      runMultiTasksChannel cfg = ChannelPolicy.unbounded :=
  fun _ => ⟨rfl, rfl⟩

/-- C9 counterexample: with `size_aware` set and capacity 1, the `hashlink`
entry point hands the driver and records in the ReportBuilder the nominal
capacity 1, not `1 * 2^15`, and the `quick_cache` entry point records the
nominal capacity in the ReportBuilder. -/
theorem C9_size_aware_cex :
    reportMaxCap EntryFn.hashLink true 1 ≠ 1 * 2 ^ 15 ∧
    driverMaxCap EntryFn.hashLink true 1 ≠ 1 * 2 ^ 15 ∧
    reportMaxCap EntryFn.quickCache true 1 ≠ 1 * 2 ^ 15 := by
  decide

/-- C9 (amended): for the moka entry points and `run_single`, when
`size_aware` is set (and the product does not overflow `u64`) the capacity
handed to the driver and recorded in the ReportBuilder equals
`capacity * 2^15` exactly, and equals `capacity` when unset; the
`quick_cache` entry point hands that value to the driver but records the
nominal capacity, and the `hashlink`, `light-cache`, `stretto` and
`tiny-ufo` entry points use the nominal capacity throughout, ignoring
`size_aware`. -/
theorem C9_size_aware_amended (capacity : Nat) (sizeAware : Bool)
    (h : capacity * sizeAwareFactor < u64Size) :
    (∀ e ∈ [EntryFn.mokaSync, EntryFn.mokaSegment, EntryFn.mokaAsync, EntryFn.mokaDash,
        EntryFn.single],
      driverMaxCap e sizeAware capacity = specSizeAwareCap sizeAware capacity ∧
      reportMaxCap e sizeAware capacity = specSizeAwareCap sizeAware capacity) ∧
    driverMaxCap EntryFn.quickCache sizeAware capacity = specSizeAwareCap sizeAware capacity ∧
    (∀ e ∈ [EntryFn.quickCache, EntryFn.hashLink, EntryFn.lightCache, EntryFn.lightCacheLru,
        EntryFn.stretto, EntryFn.tinyUfo],
      reportMaxCap e sizeAware capacity = capacity ∧
      (e ≠ EntryFn.quickCache → driverMaxCap e sizeAware capacity = capacity)) := by
  have hmoka : mokaMaxCap sizeAware capacity = specSizeAwareCap sizeAware capacity := by
    cases sizeAware with
    | false => rfl
    | true => simp [mokaMaxCap, specSizeAwareCap, Nat.mod_eq_of_lt h]
  refine ⟨?_, ?_, ?_⟩
  · intro e he
    fin_cases he <;> exact ⟨hmoka, hmoka⟩
  · exact hmoka
  · intro e he
    fin_cases he <;> simp [driverMaxCap, reportMaxCap]

/-- Witness for C9 (amended) at capacity 3 with `size_aware` set. -/
theorem C9_size_aware_amended_witness :
    driverMaxCap EntryFn.mokaSync true 3 = specSizeAwareCap true 3 :=
  ((C9_size_aware_amended 3 true (by decide)).1 EntryFn.mokaSync (by decide)).1

/-- C10: when the configuration enables the eviction listener and the
driver's eviction counters are `None`, the run aborts (unwrap) instead of
returning an error result; whenever the counters are `Some` — the stated
precondition — the abort branch is unreachable and the counters are attached
to the merged report. -/
theorem C10_eviction_precondition (cfg : Config) (counters : Option EvictionCounters)
    (r : Report) :
    (cfg.evictionListener = true → counters = none →
      finalizeReport cfg counters r = RunOutcome.panicked) ∧
    (counters.isSome = true → finalizeReport cfg counters r ≠ RunOutcome.panicked) ∧
    (cfg.evictionListener = true → ∀ c, counters = some c →
      finalizeReport cfg counters r = RunOutcome.ok (r.addEvictionCounts c)) := by
  refine ⟨?_, ?_, ?_⟩
  · intro h hn
    subst hn
    simp [finalizeReport, h]
  · intro hs
    cases counters with
    | none => simp at hs
    | some c => cases hcfg : cfg.evictionListener <;> simp [finalizeReport, hcfg]
  · intro h c hc
    subst hc
    simp [finalizeReport, h]

/-- Witness for C10 at a listener-enabled configuration, with absent and
present counters. -/
theorem C10_eviction_precondition_witness :
    finalizeReport listenerCfg none sampleReportA = RunOutcome.panicked ∧
    finalizeReport listenerCfg (some sampleCounters) sampleReportA ≠ RunOutcome.panicked :=
  ⟨(C10_eviction_precondition listenerCfg none sampleReportA).1 rfl rfl,
   (C10_eviction_precondition listenerCfg (some sampleCounters) sampleReportA).2.1 rfl⟩

/-- Sums of pointwise-equal maps agree. -/
theorem sum_map_eq_of_mem (f g : α → Nat) :
    ∀ (l : List α), (∀ x ∈ l, f x = g x) → (l.map f).sum = (l.map g).sum := by
  intro l
  induction l with
  | nil => intro _; rfl
  | cons x xs ih =>
      intro h
      simp only [List.map_cons, List.sum_cons]
      rw [h x (by simp), ih (fun y hy => h y (by simp [hy]))]

/-- A sum of pointwise sums splits. -/
theorem sum_map_add (f g : α → Nat) :
    ∀ l : List α, (l.map (fun x => f x + g x)).sum = (l.map f).sum + (l.map g).sum := by
  intro l
  induction l with
  | nil => rfl
  | cons x xs ih => simp only [List.map_cons, List.sum_cons]; omega

/-- Mapping to the constant 1 sums to the length. -/
theorem sum_map_one : ∀ l : List α, (l.map (fun _ => (1 : Nat))).sum = l.length := by
  intro l
  induction l with
  | nil => rfl
  | cons x xs ih => simp only [List.map_cons, List.sum_cons, List.length_cons]; omega

/-- An indicator summed over a range not containing the index vanishes. -/
theorem sum_range_ite_ge (x : Nat) :
    ∀ (n a : Nat), n ≤ a → ((List.range n).map (fun w => if a = w then x else 0)).sum = 0 := by
  intro n
  induction n with
  | zero => intro a _; rfl
  | succ n ih =>
      intro a h
      rw [List.range_succ]
      simp only [List.map_append, List.sum_append]
      rw [ih a (by omega)]
      have : a ≠ n := by omega
      simp [this]

/-- An indicator summed over a range containing the index picks its value. -/
theorem sum_range_ite (x : Nat) :
    ∀ (n a : Nat), a < n → ((List.range n).map (fun w => if a = w then x else 0)).sum = x := by
  intro n
  induction n with
  | zero => intro a h; omega
  | succ n ih =>
      intro a h
      rw [List.range_succ]
      simp only [List.map_append, List.sum_append]
      by_cases ha : a = n
      · subst ha
        rw [sum_range_ite_ge x a a (Nat.le_refl a)]
        simp
      · rw [ih a (by omega)]
        simp [ha]

/-- Partitioning weighted pairs into the buckets `0..n-1` by their first
component and summing bucket by bucket gives the total weight, provided
every pair falls into some bucket. -/
theorem sum_buckets (h : Nat × β → Nat) :
    ∀ (pairs : List (Nat × β)) (n : Nat), (∀ p ∈ pairs, p.1 < n) →
      ((List.range n).map
          (fun w => (((pairs.filter (fun p => p.1 == w)).map h).sum))).sum
        = (pairs.map h).sum := by
  intro pairs
  induction pairs with
  | nil => intro n _; simp
  | cons p rest ih =>
      intro n hlt
      have hp : p.1 < n := hlt p (by simp)
      have hrest : ∀ q ∈ rest, q.1 < n := fun q hq => hlt q (by simp [hq])
      have hpt : ∀ w ∈ List.range n,
          ((((p :: rest).filter (fun q => q.1 == w)).map h).sum)
            = (fun w => (if p.1 = w then h p else 0)
                + ((rest.filter (fun q => q.1 == w)).map h).sum) w := by
        intro w _
        by_cases hw : p.1 = w
        · simp [List.filter_cons, hw]
        · simp [List.filter_cons, hw]
      rw [sum_map_eq_of_mem _ _ (List.range n) hpt]
      rw [sum_map_add (fun w => if p.1 = w then h p else 0)
        (fun w => ((rest.filter (fun q => q.1 == w)).map h).sum) (List.range n)]
      rw [sum_range_ite (h p) n p.1 hp, ih n hrest]
      simp

/-- Replacing a list element by one of equal weight keeps the summed map. -/
theorem sum_map_set (h : α → Nat) :
    ∀ (l : List α) (i : Nat) (x y : α), l[i]? = some y → h x = h y →
      ((l.set i x).map h).sum = (l.map h).sum := by
  intro l
  induction l with
  | nil => intro i x y hy _; simp at hy
  | cons a l ih =>
      intro i x y hy hxy
      cases i with
      | zero =>
          simp only [List.getElem?_cons_zero, Option.some.injEq] at hy
          subst hy
          simp [List.set, hxy]
      | succ i =>
          simp only [List.getElem?_cons_succ] at hy
          simp only [List.set, List.map_cons, List.sum_cons]
          rw [ih i x y hy hxy]

/-- Every step of the scheduled execution moves one command's weight from a
worker's queue into that worker's report, so the invariant sum is
preserved across any schedule. -/
theorem runSchedule_wTotal (f : Report → Nat) (g : Command → Nat)
    (hstep : ∀ st r c, f (execCommand st r c).2 = f r + g c) :
    ∀ (sched : List Nat) (st : List Nat) (ws : List (List Command × Report)),
      wTotal f g (runSchedule sched st ws).2 = wTotal f g ws := by
  intro sched
  induction sched with
  | nil => intro st ws; rfl
  | cons w sched ih =>
      intro st ws
      simp only [runSchedule]
      cases hw : ws[w]? with
      | none => exact ih st ws
      | some p =>
          obtain ⟨q, r⟩ := p
          cases q with
          | nil => exact ih st ws
          | cons c rest =>
              rw [ih]
              unfold wTotal
              refine sum_map_set _ ws w (rest, (execCommand st r c).2) (c :: rest, r) hw ?_
              simp only
              rw [hstep st r c]
              simp only [List.map_cons, List.sum_cons]
              omega

/-- Sequential processing of a command list adds exactly the list's weight
to the report projection. -/
theorem processCommands_proj (f : Report → Nat) (g : Command → Nat)
    (hstep : ∀ st r c, f (execCommand st r c).2 = f r + g c) :
    ∀ (cmds : List Command) (st : List Nat) (r : Report),
      f (processCommands st r cmds).2 = f r + (cmds.map g).sum := by
  intro cmds
  induction cmds with
  | nil => intro st r; simp [processCommands]
  | cons c cs ih =>
      intro st r
      simp only [processCommands]
      rw [ih, hstep]
      simp only [List.map_cons, List.sum_cons]
      omega

/-- Executing any single command increments the total operation count by
exactly one. -/
theorem execCommand_totalOps (st : List Nat) (r : Report) (c : Command) :
    ((execCommand st r c).2).totalOps = r.totalOps + 1 := by
  cases c <;> simp only [execCommand] <;> (try split) <;> simp [Report.totalOps] <;> omega

/-- Executing any single command increments exactly its own kind's counter. -/
theorem execCommand_kindCount (st : List Nat) (r : Report) (c : Command) (k : CommandKind) :
    ((execCommand st r c).2).kindCount k = r.kindCount k + kindIndicator k c := by
  cases c <;> cases k <;> simp only [execCommand] <;> (try split) <;>
    simp [Report.kindCount, kindIndicator, Command.kind]

/-- Merging adds total operation counts. -/
theorem totalOps_merge (a b : Report) : (a.merge b).totalOps = a.totalOps + b.totalOps := by
  simp only [Report.merge, Report.totalOps]
  omega

/-- Merging adds per-kind operation counts. -/
theorem kindCount_merge (k : CommandKind) (a b : Report) :
    (a.merge b).kindCount k = a.kindCount k + b.kindCount k := by
  cases k <;> simp [Report.merge, Report.kindCount]

/-- Folding reports with merge sums any additive projection. -/
theorem proj_foldl_merge (f : Report → Nat)
    (hmerge : ∀ a b, f (a.merge b) = f a + f b) :
    ∀ (l : List Report) (acc : Report),
      f (l.foldl Report.merge acc) = f acc + (l.map f).sum := by
  intro l
  induction l with
  | nil => intro acc; simp
  | cons r l ih =>
      intro acc
      simp only [List.foldl_cons, List.map_cons, List.sum_cons]
      rw [ih, hmerge]
      omega

/-- A freshly built report has no operations. -/
theorem totalOps_build (rb : ReportBuilder) : rb.build.totalOps = 0 := rfl

/-- A freshly built report has no operations of any kind. -/
theorem kindCount_build (rb : ReportBuilder) (k : CommandKind) : rb.build.kindCount k = 0 := by
  cases k <;> rfl

/-- The weight of a worker's queue is the summed weight of the batches
assigned to it. -/
theorem workerQueue_weight (g : Command → Nat) (assign : List Nat) (bs : List (List Command))
    (w : Nat) :
    ((workerQueue assign bs w).map g).sum
      = (((assign.zip bs).filter (fun p => p.1 == w)).map (fun p => (p.2.map g).sum)).sum := by
  unfold workerQueue
  rw [List.map_flatten, List.sum_flatten, List.map_map, List.map_map]
  rfl

/-- Summing the weights of the second components of a zip of equal-length
lists sums the second list's weights. -/
theorem zip_map_snd_sum (h : β → Nat) :
    ∀ (a : List Nat) (b : List β), a.length = b.length →
      ((a.zip b).map (fun p => h p.2)).sum = (b.map h).sum := by
  intro a
  induction a with
  | nil =>
      intro b hb
      cases b with
      | nil => rfl
      | cons y ys => simp at hb
  | cons x xs ih =>
      intro b hb
      cases b with
      | nil => simp at hb
      | cons y ys =>
          simp only [List.zip_cons_cons, List.map_cons, List.sum_cons]
          rw [ih ys (by simpa using hb)]

/-- The initial worker pool's invariant sum is the total weight of all
batches, provided every batch is assigned to one of the `n` workers. -/
theorem wTotal_init (f : Report → Nat) (g : Command → Nat) (rb : ReportBuilder)
    (hbuild : f rb.build = 0) (n : Nat) (assign : List Nat) (bs : List (List Command))
    (hlen : assign.length = bs.length) (hlt : ∀ a ∈ assign, a < n) :
    wTotal f g (initWorkers n assign bs rb) = (bs.flatten.map g).sum := by
  have hpairs : ∀ p ∈ assign.zip bs, p.1 < n := by
    intro p hp
    exact hlt p.1 (List.of_mem_zip hp).1
  have h1 : wTotal f g (initWorkers n assign bs rb)
      = ((List.range n).map
          (fun w =>
            (((assign.zip bs).filter (fun p => p.1 == w)).map
                (fun p => (p.2.map g).sum)).sum)).sum := by
    unfold wTotal initWorkers
    rw [List.map_map]
    apply sum_map_eq_of_mem
    intro w _
    simp only [Function.comp_apply]
    rw [hbuild, workerQueue_weight]
    omega
  have h2 := sum_buckets (fun p : Nat × List Command => (p.2.map g).sum) (assign.zip bs) n hpairs
  have h3 := zip_map_snd_sum (fun b : List Command => (b.map g).sum) assign bs hlen
  have h4 : (bs.map (fun b => (b.map g).sum)).sum = (bs.flatten.map g).sum := by
    rw [List.map_flatten, List.sum_flatten, List.map_map]
    rfl
  exact h1.trans (h2.trans (h3.trans h4))

/-- Once every queue is drained the invariant sum is the summed projection
of the per-worker reports. -/
theorem wTotal_of_drained (f : Report → Nat) (g : Command → Nat)
    (ws : List (List Command × Report)) (hempty : ∀ p ∈ ws, p.1 = ([] : List Command)) :
    wTotal f g ws = ((ws.map Prod.snd).map f).sum := by
  unfold wTotal
  rw [List.map_map]
  apply sum_map_eq_of_mem
  intro p hp
  rw [hempty p hp]
  simp [Function.comp]

/-- Stripping sequence tags preserves the total number of commands. -/
theorem flatten_map_length (bs : List (List (Nat × Command))) :
    (bs.map (fun b => b.map Prod.snd)).flatten.length = bs.flatten.length := by
  rw [List.length_flatten, List.length_flatten, List.map_map]
  apply sum_map_eq_of_mem
  intro b _
  simp

/-- The total number of commands produced is `repeat * lines`. -/
theorem produceBatches_length (r : Nat) (lines : List Line)
    (bs : List (List (Nat × Command))) (h : produceBatches r lines = .ok bs) :
    bs.flatten.length = r * lines.length := by
  simp only [produceBatches] at h
  cases hp : produceRepeats lines 0 r with
  | error e => simp [hp] at h
  | ok p =>
      simp only [hp, Except.ok.injEq] at h
      subst h
      have h1 := (produceRepeats_ok r lines 0 p hp).1
      have h2 := congrArg List.length h1
      rw [List.length_map, List.length_range'] at h2
      exact h2

/-- C1: for every configuration (any repeat count, any worker count), every
line of every repeat iteration becomes exactly one command, every batch is
handed to exactly one worker, and under any schedule that drains all queues
the merged report of `run_multi_threads` counts exactly
`repeat * lines` executed operations. -/
theorem C1_total_commands (rb : ReportBuilder) (cfg : Config) (lines : List Line)
    (n : Nat) (assign sched : List Nat) (bs : List (List (Nat × Command)))
    (hbs : produceBatches (cfg.repeatCount.getD 1) lines = .ok bs)
    (hlen : assign.length = bs.length)
    (hlt : ∀ a ∈ assign, a < n)
    (hdrain : drains sched (multiWorkersInit rb n assign bs)) :
    (runMultiThreadsModel rb cfg lines n assign sched).map Report.totalOps
      = .ok ((cfg.repeatCount.getD 1) * lines.length) := by
  simp only [runMultiThreadsModel, hbs, Except.map]
  have hstep : ∀ st r c, ((execCommand st r c).2).totalOps = r.totalOps + (fun _ : Command => 1) c :=
    fun st r c => execCommand_totalOps st r c
  have hfold := proj_foldl_merge Report.totalOps totalOps_merge
    ((runSchedule sched [] (multiWorkersInit rb n assign bs)).2.map Prod.snd) rb.build
  have hfin := wTotal_of_drained Report.totalOps (fun _ => 1)
    (runSchedule sched [] (multiWorkersInit rb n assign bs)).2 hdrain
  have hinv := runSchedule_wTotal Report.totalOps (fun _ => 1) hstep sched []
    (multiWorkersInit rb n assign bs)
  have hinit := wTotal_init Report.totalOps (fun _ => 1) rb rfl n assign
    (bs.map (fun b => b.map Prod.snd)) (by simpa using hlen) hlt
  have hone := sum_map_one (bs.map (fun b => b.map Prod.snd)).flatten
  have hlen2 := flatten_map_length bs
  have hprod := produceBatches_length (cfg.repeatCount.getD 1) lines bs hbs
  have : (((runSchedule sched [] (multiWorkersInit rb n assign bs)).2.map Prod.snd).foldl
      Report.merge rb.build).totalOps = (cfg.repeatCount.getD 1) * lines.length := by
    rw [hfold, totalOps_build]
    rw [← hfin, hinv]
    unfold multiWorkersInit at hinit ⊢
    rw [hinit, hone, hlen2, hprod]
    omega
  rw [this]

/-- Witness for C1 at a one-line trace, one repeat, one worker. -/
theorem C1_total_commands_witness :
    (runMultiThreadsModel sampleRb sampleCfg oneGoodLine 1 [0] [0]).map Report.totalOps
      = .ok ((sampleCfg.repeatCount.getD 1) * oneGoodLine.length) :=
  C1_total_commands sampleRb sampleCfg oneGoodLine 1 [0] [0] [[(0, Command.iterate)]]
    rfl rfl (by decide) (by decide)

/-- Per-kind operation count of a completed `run_single`. -/
theorem runSingle_kindCount (rb : ReportBuilder) (cfg : Config) (lines : List Line)
    (bs : List (List (Nat × Command))) (k : CommandKind)
    (hbs : produceBatches (cfg.repeatCount.getD 1) lines = .ok bs) :
    (runSingleModel rb cfg lines).map (fun rep => rep.kindCount k)
      = .ok (((bs.map (fun b => b.map Prod.snd)).flatten.map (kindIndicator k)).sum) := by
  simp only [runSingleModel, hbs, Except.map]
  have h := processCommands_proj (fun rep => rep.kindCount k) (kindIndicator k)
    (fun st r c => execCommand_kindCount st r c k)
    (bs.map (fun b => b.map Prod.snd)).flatten [] rb.build
  rw [h, kindCount_build, Nat.zero_add]

/-- C8 counterexample: on a concrete 202-line trace with one repeat, the
4-worker concurrent run admits a draining schedule (worker 1 consumes the
second batch before worker 0 starts) whose merged hit count differs from the
single-worker run's — an `Invalidate` races a `GetOrInsert` of the same key —
so the hit/miss counters of `run_single` and `run_multi_threads` with
`num_clients = 4` are not identical. -/
theorem C8_hit_counts_cex :
    (runSingleModel c8Rb c8Cfg c8Lines).map Report.totalOps
        = (runMultiThreadsModel c8Rb c8Cfg c8Lines 4 c8Assign c8Sched).map Report.totalOps ∧
    hitOf (runSingleModel c8Rb c8Cfg c8Lines)
      ≠ hitOf (runMultiThreadsModel c8Rb c8Cfg c8Lines 4 c8Assign c8Sched) := by
  exact ⟨rfl, by decide⟩

/-- C8 (amended): for the same trace, configuration and template, the
per-kind operation counts of `run_multi_threads` (any worker count, any
batch assignment, any schedule that drains all queues) are identical to
those of `run_single`; the hit and miss counters, by contrast, can depend on
the interleaving when invalidations race lookups, so only throughput and the
hit/miss classification may differ. -/
theorem C8_counts_amended (rb : ReportBuilder) (cfg : Config) (lines : List Line)
    (n : Nat) (assign sched : List Nat) (bs : List (List (Nat × Command))) (k : CommandKind)
    (hbs : produceBatches (cfg.repeatCount.getD 1) lines = .ok bs)
    (hlen : assign.length = bs.length)
    (hlt : ∀ a ∈ assign, a < n)
    (hdrain : drains sched (multiWorkersInit rb n assign bs)) :
    (runMultiThreadsModel rb cfg lines n assign sched).map (fun rep => rep.kindCount k)
      = (runSingleModel rb cfg lines).map (fun rep => rep.kindCount k) := by
  rw [runSingle_kindCount rb cfg lines bs k hbs]
  simp only [runMultiThreadsModel, hbs, Except.map]
  have hfold := proj_foldl_merge (fun rep => rep.kindCount k) (kindCount_merge k)
    ((runSchedule sched [] (multiWorkersInit rb n assign bs)).2.map Prod.snd) rb.build
  have hfin := wTotal_of_drained (fun rep => rep.kindCount k) (kindIndicator k)
    (runSchedule sched [] (multiWorkersInit rb n assign bs)).2 hdrain
  have hinv := runSchedule_wTotal (fun rep => rep.kindCount k) (kindIndicator k)
    (fun st r c => execCommand_kindCount st r c k) sched []
    (multiWorkersInit rb n assign bs)
  have hinit := wTotal_init (fun rep => rep.kindCount k) (kindIndicator k) rb
    (kindCount_build rb k) n assign (bs.map (fun b => b.map Prod.snd))
    (by simpa using hlen) hlt
  have : (((runSchedule sched [] (multiWorkersInit rb n assign bs)).2.map Prod.snd).foldl
      Report.merge rb.build).kindCount k
        = ((bs.map (fun b => b.map Prod.snd)).flatten.map (kindIndicator k)).sum := by
    rw [hfold, kindCount_build]
    rw [← hfin, hinv]
    unfold multiWorkersInit at hinit ⊢
    rw [hinit]
    omega
  rw [this]

/-- Witness for C8 (amended) at a one-line trace, one repeat, one worker. -/
theorem C8_counts_amended_witness :
    (runMultiThreadsModel sampleRb sampleCfg oneGoodLine 1 [0] [0]).map
        (fun rep => rep.kindCount CommandKind.iterate)
      = (runSingleModel sampleRb sampleCfg oneGoodLine).map
        (fun rep => rep.kindCount CommandKind.iterate) :=
  C8_counts_amended sampleRb sampleCfg oneGoodLine 1 [0] [0] [[(0, Command.iterate)]]
    CommandKind.iterate rfl rfl (by decide) (by decide)

end Mokabench
